import Mathlib

/-!
Verification of the Scene Curation Engine of the MISupperCut repository.

The engine lives in `src/sequence_selection.py` (filter, rank, diversity
balance, budget pack) and in `analyze_scene` of `src/action_recognition.py`
(segment resolution).  Scenes are Python dictionaries read with
`dict.get(key, default)`, so every field a stage reads is modelled as an
`Option` and the stage applies the source's default via `Option.getD`.
Real-valued quantities (seconds, confidences) are modelled as rationals.
Python's `sorted` (a stable sort) is modelled as a stable insertion sort.
-/

namespace MISupperCut

/-- A scene record as produced by scene detection plus action recognition.
Each field mirrors a dictionary key of the source; `none` models an absent
key (the selection code reads every one of these with `dict.get` and a
default). -/
structure Scene where
  scene_number : Option Nat := none
  video_path : Option String := none
  start_time : Option ℚ := none
  end_time : Option ℚ := none
  duration : Option ℚ := none
  action_type : Option String := none
  action_confidence : Option ℚ := none
  is_action_scene : Option Bool := none
deriving DecidableEq

/-- `scene.get('action_confidence', 0.0)` -/
def sceneConf (s : Scene) : ℚ := s.action_confidence.getD 0

/-- `scene.get('duration', 0.0)` -/
def sceneDuration (s : Scene) : ℚ := s.duration.getD 0

/-- `scene.get('action_type', 'unknown')` -/
def sceneType (s : Scene) : String := s.action_type.getD "unknown"

/-- The list-comprehension predicate of `filter_action_scenes`
(`sequence_selection.py` lines 42-47):
`scene.get('is_action_scene', False) and
 scene.get('action_confidence', 0.0) >= min_confidence and
 min_duration <= scene.get('duration', 0.0) <= max_duration`. -/
def filterPred (min_confidence min_duration max_duration : ℚ) (s : Scene) : Bool :=
  s.is_action_scene.getD false
    && decide (min_confidence ≤ sceneConf s)
    && (decide (min_duration ≤ sceneDuration s) && decide (sceneDuration s ≤ max_duration))

/-- `SequenceSelection.filter_action_scenes` (`sequence_selection.py` 29-52). -/
def filter_action_scenes (scenes : List Scene)
    (min_confidence min_duration max_duration : ℚ) : List Scene :=
  scenes.filter (filterPred min_confidence min_duration max_duration)

/-- One step of the stable descending insertion sort modelling Python's
`sorted(..., key=lambda x: x.get('action_confidence', 0.0), reverse=True)`:
`s` is placed before the first element whose key is not larger, so among
equal keys the earlier-inserted (originally earlier) element stays first. -/
def insertConfDesc (s : Scene) : List Scene → List Scene
  | [] => [s]
  | t :: ts => if sceneConf t ≤ sceneConf s then s :: t :: ts else t :: insertConfDesc s ts

/-- Stable sort by `action_confidence` descending (Python's `sorted` with
`reverse=True` is stable, CPython reference: Timsort). -/
def sortByConfDesc : List Scene → List Scene
  | [] => []
  | s :: ss => insertConfDesc s (sortByConfDesc ss)

/-- `SequenceSelection.rank_scenes_by_action_intensity`
(`sequence_selection.py` 54-68). -/
def rank_scenes_by_action_intensity (scenes : List Scene) : List Scene :=
  sortByConfDesc scenes

/-- First-occurrence deduplication: the distinct keys of a Python dict built
by insertion, in discovery order.  `dedupFirst (map sceneType scenes)` is the
iteration order of `scenes_by_type` in `ensure_action_diversity`. -/
def dedupFirst : List String → List String
  | [] => []
  | k :: ks => k :: (dedupFirst ks).filter (fun t => decide (t ≠ k))

/-- The action types of `scenes` in order of first appearance: the key order
of the insertion-ordered dict `scenes_by_type` (`sequence_selection.py`
98-103), and the domain of `Counter(action_types)`. -/
def discoveredTypes (scenes : List Scene) : List String :=
  dedupFirst (scenes.map sceneType)

/-- The group `scenes_by_type[ty]`: the subsequence of `scenes` whose
action type is `ty`. -/
def scenesOfType (ty : String) (scenes : List Scene) : List Scene :=
  scenes.filter (fun s => decide (sceneType s = ty))

/-- `max_per_type` as computed when the caller passes `None`
(`sequence_selection.py` 89-95): `max(int(avg_per_type * 1.5),
min_per_type + 1)` with `avg_per_type = len(scenes) / len(type_counter)`,
or `len(scenes)` when there are no action types.  `int` truncation on a
non-negative float is the floor. -/
def derivedMaxPerType (scenes : List Scene) (min_per_type : Nat) : Nat :=
  let k := (discoveredTypes scenes).length
  if k = 0 then scenes.length
  else max (((scenes.length : ℚ) / (k : ℚ) * (3 / 2)).floor.toNat) (min_per_type + 1)

/-- `SequenceSelection.ensure_action_diversity` (`sequence_selection.py`
70-133).  First loop: per type (discovery order) sort the group by
confidence descending and emit its first `min_per_type` scenes, keeping the
rest.  Second loop: per type take up to `max_per_type - min_per_type` of the
kept scenes when that bound is positive.  The merged surplus is re-sorted by
confidence descending and appended. -/
def ensure_action_diversity (scenes : List Scene)
    (max_per_type : Option Nat) (min_per_type : Nat) : List Scene :=
  let maxPer := match max_per_type with
    | some m => m
    | none => derivedMaxPerType scenes min_per_type
  let keys := discoveredTypes scenes
  let balanced := keys.flatMap (fun ty =>
    ((sortByConfDesc (scenesOfType ty scenes)).take min_per_type))
  let remaining := keys.flatMap (fun ty =>
    if 0 < maxPer - min_per_type then
      ((sortByConfDesc (scenesOfType ty scenes)).drop min_per_type).take (maxPer - min_per_type)
    else [])
  balanced ++ sortByConfDesc remaining

/-- The greedy packing loop of `select_sequences_for_supercut`
(`sequence_selection.py` 171-187), with the running total made explicit.
A scene is skipped when `current_duration + scene_duration >
target_duration * 1.2`; otherwise it is appended, its duration added, and
the walk stops once `current_duration >= target_duration`.  Returns the
selection together with the final `current_duration`. -/
def packLoop (target_duration : ℚ) : List Scene → ℚ → List Scene × ℚ
  | [], current_duration => ([], current_duration)
  | s :: rest, current_duration =>
    let d := sceneDuration s
    if target_duration * (12 / 10) < current_duration + d then
      packLoop target_duration rest current_duration
    else if target_duration ≤ current_duration + d then
      ([s], current_duration + d)
    else
      let p := packLoop target_duration rest (current_duration + d)
      (s :: p.1, p.2)

/-- `SequenceSelection.select_sequences_for_supercut`
(`sequence_selection.py` 135-192): filter, early-return on an empty filtered
set, rank, optionally balance diversity (with `min_per_type` at its default
1), then run the greedy packing loop from a zero running total. -/
def select_sequences_for_supercut (scenes : List Scene) (target_duration : ℚ)
    (min_confidence min_duration max_duration : ℚ)
    (ensure_diversity : Bool) (max_per_type : Option Nat) : List Scene :=
  let filtered := filter_action_scenes scenes min_confidence min_duration max_duration
  if filtered.isEmpty then []
  else
    let ranked := rank_scenes_by_action_intensity filtered
    let selected := if ensure_diversity then
        ensure_action_diversity ranked max_per_type 1
      else ranked
    (packLoop target_duration selected 0).1

/-- Summed `scene.get('duration', 0.0)` of a selection, the quantity the
packing loop tracks as `current_duration`. -/
def totalDuration (scenes : List Scene) : ℚ := (scenes.map sceneDuration).sum

/-! ## Segment resolution (`action_recognition.py`)

`ActionRecognition.classify_action` runs the neural classifier, an external
collaborator; it is modelled as an arbitrary function from a time range to
its result record.  `analyze_scene` (lines 241-296) is the segment
resolver verified here. -/

/-- The record `classify_action` returns (`action_recognition.py` 229-234):
`{'action_type': ..., 'confidence': ..., 'is_action': ..., 'all_scores': ...}`. -/
structure ClassResult where
  action_type : String
  confidence : ℚ
  is_action : Bool
  all_scores : List (String × ℚ)
deriving DecidableEq

/-- The scene dictionary `analyze_scene` receives and updates.
`start_time`, `end_time` and `duration` are indexed directly by the source
(a missing key would raise), the remaining keys are written by
`analyze_scene` itself, so they are `Option`s that start out absent. -/
structure SceneInfo where
  start_time : ℚ
  end_time : ℚ
  duration : ℚ
  action_type : Option String := none
  action_confidence : Option ℚ := none
  is_action_scene : Option Bool := none
  segment_results : Option (List ClassResult) := none
  all_scores : Option (List (String × ℚ)) := none
deriving DecidableEq

/-- The segmentation loop of `analyze_scene` (`action_recognition.py`
258-265): `while current_time < end_time - 1.0`, each window runs to
`min(current_time + segment_duration, end_time)`.  The loop is modelled
with explicit fuel; each iteration advances `current_time` by
`min(segment_duration, end_time - current_time)`, which under the loop
condition and `segment_duration = 5` exceeds 1, so `⌈end - start⌉`
iterations always suffice. -/
def segmentsAux (end_time segment_duration : ℚ) : Nat → ℚ → List (ℚ × ℚ)
  | 0, _ => []
  | fuel + 1, current_time =>
    if current_time < end_time - 1 then
      let segment_end := min (current_time + segment_duration) end_time
      (current_time, segment_end) :: segmentsAux end_time segment_duration fuel segment_end
    else []

/-- The list `segments` built by `analyze_scene` for a long scene, with the
source's `segment_duration = 5.0`. -/
def sceneSegments (start_time end_time : ℚ) : List (ℚ × ℚ) :=
  segmentsAux end_time 5 ⌈end_time - start_time⌉.toNat start_time

/-- Python's `max(results, key=lambda x: x['confidence'])` on a non-empty
list: fold keeping the current best, replacing it only on a strictly larger
key, so the first of several maximal elements wins. -/
def pyMaxConf (first : ClassResult) (rest : List ClassResult) : ClassResult :=
  rest.foldl (fun best r => if best.confidence < r.confidence then r else best) first

/-- `ActionRecognition.analyze_scene` (`action_recognition.py` 241-296),
parameterised by the external classifier.  For `duration > 10.0` it
classifies each window, takes the window with the highest confidence
(`max` on an empty sequence raises `ValueError` in Python, hence `none`),
and stores the per-window results under `segment_results`; otherwise it
classifies the whole range once and stores that result's `all_scores`. -/
def analyze_scene (classify : ℚ → ℚ → ClassResult) (scene_info : SceneInfo) :
    Option SceneInfo :=
  if 10 < scene_info.duration then
    let segs := sceneSegments scene_info.start_time scene_info.end_time
    match segs.map (fun p => classify p.1 p.2) with
    | [] => none
    | r :: rs =>
      let best := pyMaxConf r rs
      some { scene_info with
        action_type := some best.action_type,
        action_confidence := some best.confidence,
        is_action_scene := some best.is_action,
        segment_results := some (r :: rs) }
  else
    let result := classify scene_info.start_time scene_info.end_time
    some { scene_info with
      action_type := some result.action_type,
      action_confidence := some result.confidence,
      is_action_scene := some result.is_action,
      all_scores := some result.all_scores }

/-! ## Lemmas about the stable sort -/

/-- The descending order the ranked list satisfies: any earlier scene has a
confidence at least that of any later scene. -/
def confDescOrder (a b : Scene) : Prop := sceneConf b ≤ sceneConf a

theorem insertConfDesc_perm (s : Scene) (l : List Scene) :
    List.Perm (insertConfDesc s l) (s :: l) := by
  induction l with
  | nil => exact List.Perm.refl _
  | cons t ts ih =>
    unfold insertConfDesc
    by_cases h : sceneConf t ≤ sceneConf s
    · simp [h]
    · simpa [h] using (ih.cons t).trans (List.Perm.swap s t ts)

theorem sortByConfDesc_perm (l : List Scene) : List.Perm (sortByConfDesc l) l := by
  induction l with
  | nil => exact List.Perm.refl _
  | cons s ss ih => exact (insertConfDesc_perm s (sortByConfDesc ss)).trans (ih.cons s)

theorem mem_sortByConfDesc {s : Scene} {l : List Scene} :
    s ∈ sortByConfDesc l ↔ s ∈ l :=
  (sortByConfDesc_perm l).mem_iff

theorem length_sortByConfDesc (l : List Scene) :
    (sortByConfDesc l).length = l.length :=
  (sortByConfDesc_perm l).length_eq

theorem pairwise_insertConfDesc {l : List Scene} (s : Scene)
    (h : l.Pairwise confDescOrder) :
    (insertConfDesc s l).Pairwise confDescOrder := by
  induction l with
  | nil => simp [insertConfDesc, confDescOrder]
  | cons t ts ih =>
    rcases List.pairwise_cons.1 h with ⟨ht, hts⟩
    unfold insertConfDesc
    by_cases hst : sceneConf t ≤ sceneConf s
    · rw [if_pos hst]
      refine List.pairwise_cons.2 ⟨?_, h⟩
      intro x hx
      rcases List.mem_cons.1 hx with rfl | hx
      · exact hst
      · exact le_trans (ht x hx) hst
    · rw [if_neg hst]
      refine List.pairwise_cons.2 ⟨?_, ih hts⟩
      intro x hx
      rcases List.mem_cons.1 ((insertConfDesc_perm s ts).mem_iff.1 hx) with rfl | hx2
      · exact le_of_lt (lt_of_not_le hst)
      · exact ht x hx2

theorem pairwise_sortByConfDesc (l : List Scene) :
    (sortByConfDesc l).Pairwise confDescOrder := by
  induction l with
  | nil => simp [sortByConfDesc]
  | cons s ss ih => exact pairwise_insertConfDesc s ih

theorem insertConfDesc_eq_cons {l : List Scene} (s : Scene)
    (h : ∀ t ∈ l.head?, sceneConf t ≤ sceneConf s) :
    insertConfDesc s l = s :: l := by
  cases l with
  | nil => rfl
  | cons t ts => simp [insertConfDesc, h t rfl]

/-- A list already sorted by confidence descending is a fixed point of the
sort. -/
theorem sortByConfDesc_eq_self {l : List Scene}
    (h : l.Pairwise confDescOrder) : sortByConfDesc l = l := by
  induction l with
  | nil => rfl
  | cons s ss ih =>
    rcases List.pairwise_cons.1 h with ⟨hs, hss⟩
    rw [sortByConfDesc, ih hss]
    refine insertConfDesc_eq_cons s ?_
    intro t ht
    cases ss with
    | nil => simp at ht
    | cons u us => rw [List.head?_cons, Option.mem_some_iff] at ht
                   exact ht ▸ hs u (List.mem_cons_self u us)

/-- Stability of one insertion step, phrased on the subsequence of scenes
with a fixed confidence value. -/
theorem filter_insertConfDesc (s : Scene) (l : List Scene) (q : ℚ) :
    (insertConfDesc s l).filter (fun x => decide (sceneConf x = q)) =
      if sceneConf s = q then
        s :: l.filter (fun x => decide (sceneConf x = q))
      else l.filter (fun x => decide (sceneConf x = q)) := by
  induction l with
  | nil => by_cases hs : sceneConf s = q <;> simp [insertConfDesc, hs]
  | cons t ts ih =>
    unfold insertConfDesc
    by_cases hst : sceneConf t ≤ sceneConf s
    · rw [if_pos hst]
      by_cases hs : sceneConf s = q
      · by_cases ht : sceneConf t = q <;> simp [List.filter_cons, hs, ht]
      · by_cases ht : sceneConf t = q <;> simp [List.filter_cons, hs, ht]
    · rw [if_neg hst]
      have htq : sceneConf t = q → ¬ (sceneConf s = q) := by
        intro ht hs
        exact hst (le_of_eq (ht.trans hs.symm))
      by_cases hs : sceneConf s = q
      · have ht : ¬ (sceneConf t = q) := fun ht => htq ht hs
        simp [List.filter_cons, ht, ih, hs]
      · by_cases ht : sceneConf t = q <;> simp [List.filter_cons, ht, ih, hs]

/-- Stability of the sort: scenes of any one confidence value keep their
relative order. -/
theorem filter_sortByConfDesc (l : List Scene) (q : ℚ) :
    (sortByConfDesc l).filter (fun x => decide (sceneConf x = q)) =
      l.filter (fun x => decide (sceneConf x = q)) := by
  induction l with
  | nil => rfl
  | cons s ss ih =>
    rw [sortByConfDesc, filter_insertConfDesc]
    by_cases hs : sceneConf s = q <;> simp [hs, ih, List.filter_cons]

/-! ## Lemmas about the packing loop -/

/-- The running total the loop returns is the starting total plus the summed
durations of the accepted scenes. -/
theorem packLoop_total (t : ℚ) (l : List Scene) (c : ℚ) :
    (packLoop t l c).2 = c + totalDuration (packLoop t l c).1 := by
  induction l generalizing c with
  | nil => simp [packLoop, totalDuration]
  | cons s rest ih =>
    rw [packLoop]
    by_cases h1 : t * (12 / 10) < c + sceneDuration s
    · rw [if_pos h1]
      exact ih c
    · rw [if_neg h1]
      by_cases h2 : t ≤ c + sceneDuration s
      · rw [if_pos h2]
        simp [totalDuration]
      · rw [if_neg h2]
        simp only [totalDuration, List.map_cons, List.sum_cons]
        rw [ih (c + sceneDuration s)]
        simp [totalDuration]
        ring

/-- Invariant of the loop: a running total within the overflow bound stays
within it. -/
theorem packLoop_le_bound (t : ℚ) (l : List Scene) (c : ℚ)
    (hc : c ≤ t * (12 / 10)) : (packLoop t l c).2 ≤ t * (12 / 10) := by
  induction l generalizing c with
  | nil => simpa [packLoop] using hc
  | cons s rest ih =>
    rw [packLoop]
    by_cases h1 : t * (12 / 10) < c + sceneDuration s
    · rw [if_pos h1]
      exact ih c hc
    · rw [if_neg h1]
      by_cases h2 : t ≤ c + sceneDuration s
      · rw [if_pos h2]
        exact le_of_not_lt h1
      · rw [if_neg h2]
        exact ih (c + sceneDuration s) (le_of_not_lt h1)

/-- The accepted scenes form a subsequence of the walked list. -/
theorem packLoop_sublist (t : ℚ) (l : List Scene) (c : ℚ) :
    (packLoop t l c).1.Sublist l := by
  induction l generalizing c with
  | nil => simp [packLoop]
  | cons s rest ih =>
    rw [packLoop]
    by_cases h1 : t * (12 / 10) < c + sceneDuration s
    · rw [if_pos h1]
      exact (ih c).cons s
    · rw [if_neg h1]
      by_cases h2 : t ≤ c + sceneDuration s
      · rw [if_pos h2]
        exact (List.nil_sublist rest).cons₂ s
      · rw [if_neg h2]
        exact (ih (c + sceneDuration s)).cons₂ s

/-- Re-walking the loop's own output from the same starting total accepts
all of it and reproduces the same total. -/
theorem packLoop_idem (t : ℚ) (l : List Scene) (c : ℚ) :
    packLoop t (packLoop t l c).1 c = packLoop t l c := by
  induction l generalizing c with
  | nil => rfl
  | cons s rest ih =>
    rw [packLoop]
    by_cases h1 : t * (12 / 10) < c + sceneDuration s
    · rw [if_pos h1]
      exact ih c
    · rw [if_neg h1]
      by_cases h2 : t ≤ c + sceneDuration s
      · rw [if_pos h2, packLoop]
        rw [if_neg h1, if_pos h2]
      · rw [if_neg h2]
        rw [packLoop]
        rw [if_neg h1, if_neg h2, ih (c + sceneDuration s)]

/-! ## Lemmas about grouping and counting by action type -/

/-- The number of scenes of action type `ty` in a list. -/
def countType (ty : String) (scenes : List Scene) : Nat :=
  scenes.countP (fun s => decide (sceneType s = ty))

theorem countType_append (ty : String) (l1 l2 : List Scene) :
    countType ty (l1 ++ l2) = countType ty l1 + countType ty l2 :=
  List.countP_append _ _ _

theorem countType_perm {l1 l2 : List Scene} (h : List.Perm l1 l2) (ty : String) :
    countType ty l1 = countType ty l2 :=
  h.countP_eq _

theorem countType_eq_zero {ty : String} {l : List Scene}
    (h : ∀ s ∈ l, sceneType s ≠ ty) : countType ty l = 0 :=
  List.countP_eq_zero.2 (by simpa using h)

theorem countType_eq_length_scenesOfType (ty : String) (scenes : List Scene) :
    countType ty scenes = (scenesOfType ty scenes).length :=
  List.countP_eq_length_filter _ _

theorem sceneType_of_mem_scenesOfType {s : Scene} {ty : String} {scenes : List Scene}
    (h : s ∈ scenesOfType ty scenes) : sceneType s = ty := by
  simpa using List.of_mem_filter h

theorem dedupFirst_nodup (l : List String) : (dedupFirst l).Nodup := by
  induction l with
  | nil => simp [dedupFirst]
  | cons k ks ih =>
    rw [dedupFirst]
    refine List.nodup_cons.2 ⟨?_, ih.filter _⟩
    intro hk
    simpa using List.of_mem_filter hk

theorem mem_dedupFirst {t : String} {l : List String} : t ∈ dedupFirst l ↔ t ∈ l := by
  induction l with
  | nil => simp [dedupFirst]
  | cons k ks ih =>
    rw [dedupFirst]
    by_cases hk : t = k
    · subst hk
      simp
    · simp [List.mem_filter, ih, hk]

theorem countType_flatMap_eq_zero {ty : String} {keys : List String}
    {f : String → List Scene} (h : ∀ t ∈ keys, countType ty (f t) = 0) :
    countType ty (keys.flatMap f) = 0 := by
  induction keys with
  | nil => rfl
  | cons t ts ih =>
    rw [List.flatMap_cons, countType_append, h t (List.mem_cons_self t ts),
      ih (fun u hu => h u (List.mem_cons_of_mem t hu))]

theorem le_countType_flatMap {ty : String} {keys : List String}
    {f : String → List Scene} (hmem : ty ∈ keys) :
    countType ty (f ty) ≤ countType ty (keys.flatMap f) := by
  induction keys with
  | nil => cases hmem
  | cons t ts ih =>
    rw [List.flatMap_cons, countType_append]
    rcases List.mem_cons.1 hmem with rfl | h
    · exact Nat.le_add_right _ _
    · exact le_trans (ih h) (Nat.le_add_left _ _)

theorem countType_flatMap_le {ty : String} {keys : List String}
    {f : String → List Scene} {B : Nat} (hnd : keys.Nodup)
    (hzero : ∀ t ∈ keys, t ≠ ty → countType ty (f t) = 0)
    (hB : countType ty (f ty) ≤ B) :
    countType ty (keys.flatMap f) ≤ B := by
  induction keys with
  | nil => exact Nat.zero_le B
  | cons t ts ih =>
    rw [List.flatMap_cons, countType_append]
    rcases List.nodup_cons.1 hnd with ⟨htts, hnd2⟩
    by_cases hty : t = ty
    · subst hty
      have hz : countType t (ts.flatMap f) = 0 :=
        countType_flatMap_eq_zero (fun u hu =>
          hzero u (List.mem_cons_of_mem t hu) (fun he => htts (he ▸ hu)))
      rw [hz]
      simpa using hB
    · rw [hzero t (List.mem_cons_self t ts) hty]
      simpa using ih hnd2 (fun u hu => hzero u (List.mem_cons_of_mem t hu))

/-- The Phase-A block of a present category `ty` consists of scenes of that
category only and has exactly `min min_per_type (countType ty scenes)`
elements. -/
theorem countType_floor_block (ty : String) (scenes : List Scene) (min_per_type : Nat) :
    countType ty ((sortByConfDesc (scenesOfType ty scenes)).take min_per_type)
      = min min_per_type (countType ty scenes) := by
  have hall : ∀ s ∈ (sortByConfDesc (scenesOfType ty scenes)).take min_per_type,
      sceneType s = ty := by
    intro s hs
    exact sceneType_of_mem_scenesOfType
      (mem_sortByConfDesc.1 ((List.take_sublist _ _).mem hs))
  rw [countType, List.countP_eq_length.2 (by simpa using hall),
    List.length_take, length_sortByConfDesc, ← countType_eq_length_scenesOfType]

theorem countType_floor_block_ne {ty t : String} (scenes : List Scene)
    (min_per_type : Nat) (hne : t ≠ ty) :
    countType ty ((sortByConfDesc (scenesOfType t scenes)).take min_per_type) = 0 := by
  refine countType_eq_zero (fun s hs => ?_)
  rw [sceneType_of_mem_scenesOfType (mem_sortByConfDesc.1 ((List.take_sublist _ _).mem hs))]
  exact hne

/-! ## Lemmas about the full pipeline -/

theorem select_eq_nil_of_filter_nil {scenes : List Scene} {t mc mind maxd : ℚ}
    {ed : Bool} {mpt : Option Nat}
    (h : filter_action_scenes scenes mc mind maxd = []) :
    select_sequences_for_supercut scenes t mc mind maxd ed mpt = [] := by
  simp [select_sequences_for_supercut, h]

theorem select_eq_pack {scenes : List Scene} {t mc mind maxd : ℚ} {mpt : Option Nat}
    (h : filter_action_scenes scenes mc mind maxd ≠ []) :
    select_sequences_for_supercut scenes t mc mind maxd false mpt =
      (packLoop t
        (sortByConfDesc (filter_action_scenes scenes mc mind maxd)) 0).1 := by
  have hne : ¬ ((filter_action_scenes scenes mc mind maxd).isEmpty = true) := by
    simpa [List.isEmpty_iff] using h
  simp only [select_sequences_for_supercut, if_neg hne,
    rank_scenes_by_action_intensity, Bool.false_eq_true, if_false]

/-- Every scene the pipeline (diversity off) outputs passed the filter
predicate of the run. -/
theorem filterPred_of_mem_select {scenes : List Scene} {t mc mind maxd : ℚ}
    {mpt : Option Nat} {s : Scene}
    (h : s ∈ select_sequences_for_supercut scenes t mc mind maxd false mpt) :
    filterPred mc mind maxd s = true := by
  by_cases hnil : filter_action_scenes scenes mc mind maxd = []
  · rw [select_eq_nil_of_filter_nil hnil] at h
    cases h
  · rw [select_eq_pack hnil] at h
    have hs : s ∈ sortByConfDesc (filter_action_scenes scenes mc mind maxd) :=
      (packLoop_sublist _ _ _).mem h
    exact List.of_mem_filter (mem_sortByConfDesc.1 hs)

/-- The pipeline's output (diversity off) is sorted by confidence
descending. -/
theorem select_pairwise (scenes : List Scene) (t mc mind maxd : ℚ) (mpt : Option Nat) :
    (select_sequences_for_supercut scenes t mc mind maxd false mpt).Pairwise
      confDescOrder := by
  by_cases hnil : filter_action_scenes scenes mc mind maxd = []
  · rw [select_eq_nil_of_filter_nil hnil]
    exact List.Pairwise.nil
  · rw [select_eq_pack hnil]
    exact (pairwise_sortByConfDesc _).sublist (packLoop_sublist _ _ _)

/-! ## The worked scenario's scene records (spec §8, claim C4) -/

/-- The 0.85-confidence, 15 s chase scene of the spec's worked scenario. -/
def chaseScene : Scene :=
  { action_type := some "chase", action_confidence := some (85 / 100),
    duration := some 15, is_action_scene := some true }

/-- The 0.92-confidence, 20 s fight scene of the spec's worked scenario. -/
def fightScene : Scene :=
  { action_type := some "fight", action_confidence := some (92 / 100),
    duration := some 20, is_action_scene := some true }

/-- The 0.40-confidence, 5 s chase scene of the spec's worked scenario. -/
def weakChaseScene : Scene :=
  { action_type := some "chase", action_confidence := some (40 / 100),
    duration := some 5, is_action_scene := some true }

/-- C4: on the worked scenario (minConfidence 0.5, durations 3..60, target
30, overflow 1.2, diversity off) the filter drops the 0.40 chase, the rank
is [fight, chase], the packer accepts fight (total 20 < 30) then chase
(total 35 ≤ 36, and 35 ≥ 30 so it stops), and the output is
[fight, chase] with total duration 35 s. -/
theorem select_worked_scenario :
    select_sequences_for_supercut [chaseScene, fightScene, weakChaseScene] 30
        (1 / 2) 3 60 false none = [fightScene, chaseScene]
    ∧ totalDuration (select_sequences_for_supercut
        [chaseScene, fightScene, weakChaseScene] 30 (1 / 2) 3 60 false none) = 35 := by
  constructor <;>
    norm_num [select_sequences_for_supercut, filter_action_scenes, filterPred,
      rank_scenes_by_action_intensity, sortByConfDesc, insertConfDesc, packLoop,
      totalDuration, sceneConf, sceneDuration, chaseScene, fightScene,
      weakChaseScene, List.filter]

/-! ## Claim C5: the filter stage -/

/-- C5: `filter_action_scenes` keeps a scene iff `isActionScene` is true,
`confidence >= minConfidence` and `minDuration <= duration <= maxDuration`
(absent fields defaulted); the survivors are a subsequence of the input
(same relative order, records unmodified). -/
theorem filter_action_scenes_spec (scenes : List Scene) (mc mind maxd : ℚ) :
    (filter_action_scenes scenes mc mind maxd).Sublist scenes
    ∧ ∀ s : Scene, s ∈ filter_action_scenes scenes mc mind maxd ↔
        (s ∈ scenes ∧ s.is_action_scene.getD false = true ∧ mc ≤ sceneConf s
          ∧ mind ≤ sceneDuration s ∧ sceneDuration s ≤ maxd) := by
  refine ⟨List.filter_sublist scenes, fun s => ?_⟩
  rw [filter_action_scenes, List.mem_filter, filterPred]
  simp [and_assoc]

/-- C5 instantiated: the 0.85-confidence chase scene survives the worked
scenario's filter. -/
theorem filter_action_scenes_spec_witness :
    chaseScene ∈ filter_action_scenes [chaseScene, fightScene, weakChaseScene]
      (1 / 2) 3 60 :=
  ((filter_action_scenes_spec [chaseScene, fightScene, weakChaseScene]
      (1 / 2) 3 60).2 chaseScene).2
    (by refine ⟨by simp, by simp [chaseScene], ?_, ?_, ?_⟩ <;>
          norm_num [chaseScene, sceneConf, sceneDuration])

/-! ## Claim C6: the ranker -/

/-- C6: the ranker is a stable descending sort by confidence: its output is
a permutation of its input, is sorted by confidence descending, and the
subsequence of scenes having any one confidence value is unchanged (equal
confidences keep their pre-sort relative order). -/
theorem rank_scenes_spec (scenes : List Scene) :
    List.Perm (rank_scenes_by_action_intensity scenes) scenes
    ∧ (rank_scenes_by_action_intensity scenes).Pairwise confDescOrder
    ∧ ∀ q : ℚ,
        (rank_scenes_by_action_intensity scenes).filter
            (fun x => decide (sceneConf x = q))
          = scenes.filter (fun x => decide (sceneConf x = q)) :=
  ⟨sortByConfDesc_perm scenes, pairwise_sortByConfDesc scenes,
    fun q => filter_sortByConfDesc scenes q⟩

/-! ## Claim C1: the packing bound -/

/-- A 0.9-confidence, 5 s action scene used in the negative-target
counterexample. -/
def negTargetScene : Scene :=
  { action_type := some "chase", action_confidence := some (9 / 10),
    duration := some 5, is_action_scene := some true }

/-- C1 counterexample: with targetDuration = -1 the 5 s scene passes the
filter, the packer skips it (0 + 5 > -1.2), and the achieved total 0
exceeds targetDuration * 1.2 = -1.2 — the claimed bound does not hold for
every targetDuration. -/
theorem select_packing_bound_cex :
    (-1 : ℚ) * (12 / 10) < totalDuration (select_sequences_for_supercut
      [negTargetScene] (-1) (1 / 2) 3 60 false none) := by
  norm_num [select_sequences_for_supercut, filter_action_scenes, filterPred,
    rank_scenes_by_action_intensity, sortByConfDesc, insertConfDesc, packLoop,
    totalDuration, sceneConf, sceneDuration, negTargetScene, List.filter]

/-- C1 (amended): for every input and every non-negative targetDuration the
summed durations of the returned selection never exceed
targetDuration * 1.2; the loop skips a scene exactly when its duration
would push the running total past that bound — a skip continues the walk
with the same total, while a within-bound scene is accepted (it heads the
remaining selection). -/
theorem select_packing_bound (scenes : List Scene) (t mc mind maxd : ℚ)
    (ed : Bool) (mpt : Option Nat) (ht : 0 ≤ t) :
    totalDuration (select_sequences_for_supercut scenes t mc mind maxd ed mpt)
      ≤ t * (12 / 10)
    ∧ (∀ (c : ℚ) (s : Scene) (rest : List Scene),
        t * (12 / 10) < c + sceneDuration s →
        packLoop t (s :: rest) c = packLoop t rest c)
    ∧ (∀ (c : ℚ) (s : Scene) (rest : List Scene),
        ¬ (t * (12 / 10) < c + sceneDuration s) →
        (packLoop t (s :: rest) c).1.head? = some s) := by
  refine ⟨?_, ?_, ?_⟩
  case refine_2 =>
    intro c s rest hskip
    rw [packLoop, if_pos hskip]
  case refine_3 =>
    intro c s rest hfit
    rw [packLoop, if_neg hfit]
    by_cases h2 : t ≤ c + sceneDuration s
    · rw [if_pos h2]
      rfl
    · rw [if_neg h2]
      rfl
  have hbound : (0 : ℚ) ≤ t * (12 / 10) := mul_nonneg ht (by norm_num)
  rw [select_sequences_for_supercut]
  by_cases hE : (filter_action_scenes scenes mc mind maxd).isEmpty = true
  · rw [if_pos hE]
    simpa [totalDuration] using hbound
  · rw [if_neg hE]
    have h2 := packLoop_le_bound t
      (if ed then
        ensure_action_diversity
          (rank_scenes_by_action_intensity
            (filter_action_scenes scenes mc mind maxd)) mpt 1
       else rank_scenes_by_action_intensity
          (filter_action_scenes scenes mc mind maxd)) 0 hbound
    have h3 := packLoop_total t
      (if ed then
        ensure_action_diversity
          (rank_scenes_by_action_intensity
            (filter_action_scenes scenes mc mind maxd)) mpt 1
       else rank_scenes_by_action_intensity
          (filter_action_scenes scenes mc mind maxd)) 0
    rw [h3, zero_add] at h2
    exact h2

/-- C1 (amended) instantiated at the worked scenario. -/
theorem select_packing_bound_witness :
    totalDuration (select_sequences_for_supercut
      [chaseScene, fightScene, weakChaseScene] 30 (1 / 2) 3 60 false none)
      ≤ 30 * (12 / 10) :=
  (select_packing_bound [chaseScene, fightScene, weakChaseScene] 30 (1 / 2) 3 60
    false none (by norm_num)).1

/-! ## Claim C3: configuration validation -/

/-- A 0.9-confidence action scene of duration 0, packable even under a zero
target. -/
def zeroDurationScene : Scene :=
  { action_type := some "stunts", action_confidence := some (9 / 10),
    duration := some 0, is_action_scene := some true }

/-- C3 counterexample: with targetTotalDuration = 0 — a configuration the
claim says is rejected before any stage executes — the engine runs the
filter, ranker and packer and returns a normal non-empty selection;
`select_sequences_for_supercut` has no error path at all. -/
theorem select_runs_under_invalid_target :
    select_sequences_for_supercut [zeroDurationScene] 0 (1 / 2) 0 60 false none
      = [zeroDurationScene] := by
  norm_num [select_sequences_for_supercut, filter_action_scenes, filterPred,
    rank_scenes_by_action_intensity, sortByConfDesc, insertConfDesc, packLoop,
    sceneConf, sceneDuration, zeroDurationScene, List.filter]

/-- C3 (amended): the engine performs no configuration validation and never
raises; under minDuration > maxDuration every pipeline stage still runs, no
scene passes the filter, and the normal empty selection is returned. -/
theorem select_min_gt_max_returns_nil (scenes : List Scene) (t mc mind maxd : ℚ)
    (ed : Bool) (mpt : Option Nat) (h : maxd < mind) :
    select_sequences_for_supercut scenes t mc mind maxd ed mpt = [] := by
  refine select_eq_nil_of_filter_nil (List.filter_eq_nil_iff.2 ?_)
  intro s _
  simp only [filterPred, Bool.and_eq_true, decide_eq_true_eq, not_and]
  intro _ hd1 hd2
  exact absurd (le_trans hd1 hd2) (not_le.2 h)

/-- C3 (amended) instantiated: minDuration 5 > maxDuration 3 yields the
empty selection. -/
theorem select_min_gt_max_returns_nil_witness :
    select_sequences_for_supercut [chaseScene, fightScene] 30 (1 / 2) 5 3
      false none = [] :=
  select_min_gt_max_returns_nil [chaseScene, fightScene] 30 (1 / 2) 5 3
    false none (by norm_num)

/-! ## Claim C10: absent dictionary fields -/

/-- A high-confidence action scene whose record has no duration key. -/
def noDurationScene : Scene :=
  { action_type := some "vehicle", action_confidence := some (9 / 10),
    is_action_scene := some true }

/-- C10 counterexample: with targetDuration = -1 the duration-less scene
passes the filter (its missing duration reads as 0, inside [-1, 60]) and
reaches the packer, which skips it (0 + 0 > -1 * 1.2) — so a missing-
duration scene reaching the packer is not always accepted. -/
theorem missing_duration_not_always_accepted :
    filter_action_scenes [noDurationScene] (1 / 2) (-1) 60 = [noDurationScene]
    ∧ select_sequences_for_supercut [noDurationScene] (-1) (1 / 2) (-1) 60
        false none = [] := by
  constructor <;>
    norm_num [select_sequences_for_supercut, filter_action_scenes, filterPred,
      rank_scenes_by_action_intensity, sortByConfDesc, insertConfDesc, packLoop,
      sceneConf, sceneDuration, noDurationScene, List.filter]

/-- C10 (amended): the selection operations are total over records with
absent fields: a scene with no `is_action_scene` key never passes the
filter, a missing confidence reads as 0 for the filter and ranker, a
missing duration reads as 0 for the filter and packer, and whenever the
packer's running total is within the overflow bound (always the case for a
non-negative target) it accepts a duration-less scene and adds nothing to
the total. -/
theorem missing_field_defaults (scenes : List Scene) (mc mind maxd t c : ℚ)
    (s : Scene) (rest : List Scene) :
    (s.is_action_scene = none → s ∉ filter_action_scenes scenes mc mind maxd)
    ∧ (s.action_confidence = none → sceneConf s = 0)
    ∧ (s.duration = none → sceneDuration s = 0)
    ∧ (s.duration = none → c ≤ t * (12 / 10) →
        packLoop t (s :: rest) c =
          (if t ≤ c then ([s], c)
           else (s :: (packLoop t rest c).1, (packLoop t rest c).2))) := by
  refine ⟨?_, ?_, ?_, ?_⟩
  · intro hnone hmem
    have := (List.mem_filter.1 hmem).2
    simp [filterPred, hnone] at this
  · intro hnone
    simp [sceneConf, hnone]
  · intro hnone
    simp [sceneDuration, hnone]
  · intro hnone hc
    rw [packLoop]
    have hd : sceneDuration s = 0 := by simp [sceneDuration, hnone]
    rw [hd, add_zero]
    rw [if_neg (not_lt.2 hc)]

/-- C10 (amended) instantiated: the packer accepts the duration-less scene
under target 30 and its total stays 0. -/
theorem missing_field_defaults_witness :
    packLoop 30 [noDurationScene] 0 = ([noDurationScene], 0) := by
  have h := (missing_field_defaults [] (1 / 2) 3 60 30 0 noDurationScene
    []).2.2.2 rfl (by norm_num)
  rw [h, if_neg (by norm_num : ¬ (30 : ℚ) ≤ 0)]
  rfl

/-! ## Claims C7 and C8: the diversity balancer -/

/-- Phase A ("floor pass") of the balancer: per discovered category, in
discovery order, the top `min_per_type` scenes of that category by
confidence (`sequence_selection.py` 108-115). -/
def diversityFloorPass (scenes : List Scene) (min_per_type : Nat) : List Scene :=
  (discoveredTypes scenes).flatMap (fun ty =>
    (sortByConfDesc (scenesOfType ty scenes)).take min_per_type)

/-- Phase B ("ceiling pass"): each category's surplus beyond the floor,
capped at `maxPer - min_per_type` when that cap is positive, merged and
re-sorted by confidence descending (`sequence_selection.py` 117-129). -/
def diversitySurplusPass (scenes : List Scene) (maxPer min_per_type : Nat) :
    List Scene :=
  sortByConfDesc ((discoveredTypes scenes).flatMap (fun ty =>
    if 0 < maxPer - min_per_type then
      ((sortByConfDesc (scenesOfType ty scenes)).drop min_per_type).take
        (maxPer - min_per_type)
    else []))

/-- The per-category ceiling the balancer actually uses: the caller's value
when supplied, the derived one otherwise. -/
def effectiveMaxPerType (scenes : List Scene) (max_per_type : Option Nat)
    (min_per_type : Nat) : Nat :=
  match max_per_type with
  | some m => m
  | none => derivedMaxPerType scenes min_per_type

theorem ensure_action_diversity_decomp (scenes : List Scene)
    (mpt : Option Nat) (minPer : Nat) :
    ensure_action_diversity scenes mpt minPer =
      diversityFloorPass scenes minPer ++
        diversitySurplusPass scenes (effectiveMaxPerType scenes mpt minPer) minPer := by
  cases mpt <;> rfl

theorem countType_surplus_block_ne {ty t : String} (scenes : List Scene)
    (minPer cap : Nat) (hne : t ≠ ty) :
    countType ty (if 0 < cap then
      ((sortByConfDesc (scenesOfType t scenes)).drop minPer).take cap
    else []) = 0 := by
  by_cases hcap : 0 < cap
  · rw [if_pos hcap]
    refine countType_eq_zero (fun s hs => ?_)
    have hmem : s ∈ sortByConfDesc (scenesOfType t scenes) :=
      ((List.take_sublist _ _).trans (List.drop_sublist _ _)).mem hs
    rw [sceneType_of_mem_scenesOfType (mem_sortByConfDesc.1 hmem)]
    exact hne
  · rw [if_neg hcap]
    rfl

theorem countType_surplus_block_le (ty : String) (scenes : List Scene)
    (minPer cap : Nat) :
    countType ty (if 0 < cap then
      ((sortByConfDesc (scenesOfType ty scenes)).drop minPer).take cap
    else []) ≤ cap := by
  by_cases hcap : 0 < cap
  · rw [if_pos hcap]
    exact le_trans (List.countP_le_length _) (List.length_take_le _ _)
  · rw [if_neg hcap]
    exact Nat.zero_le cap

/-- C7: for every category present in the input, the balancer's output
contains at least `min min_per_type (size of that category)` scenes of that
category; the output is the Phase-A floor pass followed by the Phase-B
surplus pass; and the Phase-A block of each category (emitted in discovery
order) consists of scenes of that category only. -/
theorem ensure_action_diversity_floor (scenes : List Scene) (mpt : Option Nat)
    (minPer : Nat) :
    ensure_action_diversity scenes mpt minPer =
      diversityFloorPass scenes minPer ++
        diversitySurplusPass scenes (effectiveMaxPerType scenes mpt minPer) minPer
    ∧ (∀ ty ∈ discoveredTypes scenes,
        min minPer (countType ty scenes)
          ≤ countType ty (ensure_action_diversity scenes mpt minPer))
    ∧ (∀ ty ∈ discoveredTypes scenes,
        ∀ s ∈ (sortByConfDesc (scenesOfType ty scenes)).take minPer,
          sceneType s = ty) := by
  refine ⟨ensure_action_diversity_decomp scenes mpt minPer, ?_, ?_⟩
  · intro ty hty
    rw [ensure_action_diversity_decomp scenes mpt minPer, countType_append]
    refine le_trans ?_ (Nat.le_add_right _ _)
    rw [← countType_floor_block ty scenes minPer, diversityFloorPass]
    exact @le_countType_flatMap ty (discoveredTypes scenes)
      (fun t => (sortByConfDesc (scenesOfType t scenes)).take minPer) hty
  · intro ty _ s hs
    exact sceneType_of_mem_scenesOfType
      (mem_sortByConfDesc.1 ((List.take_sublist _ _).mem hs))

/-- C7 instantiated at the worked scenario: the chase category keeps at
least `min 1 2` scene in the balanced output. -/
theorem ensure_action_diversity_floor_witness :
    min 1 (countType "chase" [chaseScene, fightScene, weakChaseScene])
      ≤ countType "chase"
        (ensure_action_diversity [chaseScene, fightScene, weakChaseScene] none 1) :=
  (ensure_action_diversity_floor [chaseScene, fightScene, weakChaseScene]
    none 1).2.1 "chase"
    (by simp [discoveredTypes, dedupFirst, sceneType, chaseScene, fightScene,
      weakChaseScene])

/-- C8: when `max_per_type` is not supplied the balancer behaves exactly as
if it were supplied as `max(floor((totalScenes / distinctCategories) * 1.5),
min_per_type + 1)` — or the total scene count when there are no
categories — and for a caller-supplied ceiling `M >= min_per_type` no
category appears more than `M` times in the output. -/
theorem ensure_action_diversity_cap (scenes : List Scene) (minPer : Nat) :
    (ensure_action_diversity scenes none minPer =
      ensure_action_diversity scenes
        (some (if (discoveredTypes scenes).length = 0 then scenes.length
          else max (((scenes.length : ℚ) / ((discoveredTypes scenes).length : ℚ)
              * (3 / 2)).floor.toNat) (minPer + 1))) minPer)
    ∧ ∀ M : Nat, minPer ≤ M → ∀ ty : String,
        countType ty (ensure_action_diversity scenes (some M) minPer) ≤ M := by
  constructor
  · rfl
  · intro M hM ty
    rw [ensure_action_diversity_decomp scenes (some M) minPer, countType_append]
    have hfloor : countType ty (diversityFloorPass scenes minPer) ≤ minPer := by
      refine countType_flatMap_le (dedupFirst_nodup _) ?_ ?_
      · intro t _ hne
        exact countType_floor_block_ne scenes minPer hne
      · rw [countType_floor_block ty scenes minPer]
        exact min_le_left _ _
    have hsurplus : countType ty
        (diversitySurplusPass scenes (effectiveMaxPerType scenes (some M) minPer)
          minPer) ≤ M - minPer := by
      rw [diversitySurplusPass,
        countType_perm (sortByConfDesc_perm _) ty]
      refine countType_flatMap_le (dedupFirst_nodup _) ?_ ?_
      · intro t _ hne
        exact countType_surplus_block_ne scenes minPer _ hne
      · exact countType_surplus_block_le ty scenes minPer _
    calc countType ty (diversityFloorPass scenes minPer) +
          countType ty (diversitySurplusPass scenes
            (effectiveMaxPerType scenes (some M) minPer) minPer)
        ≤ minPer + (M - minPer) := Nat.add_le_add hfloor hsurplus
      _ = M := Nat.add_sub_cancel' hM

/-- C8 instantiated at the worked scenario with a supplied ceiling 2: no
category appears more than twice. -/
theorem ensure_action_diversity_cap_witness :
    countType "chase"
      (ensure_action_diversity [chaseScene, fightScene, weakChaseScene]
        (some 2) 1) ≤ 2 :=
  (ensure_action_diversity_cap [chaseScene, fightScene, weakChaseScene] 1).2 2
    (by norm_num) "chase"

/-! ## Claim C9: idempotence of the pipeline -/

/-- C9: running the pipeline (diversity off) again on its own output, with
the same target and with filter parameters loose enough to admit every
scene of that output, returns the output unchanged. -/
theorem select_idempotent (scenes : List Scene)
    (t mc mind maxd mc2 mind2 maxd2 : ℚ)
    (h : ∀ s ∈ select_sequences_for_supercut scenes t mc mind maxd false none,
      mc2 ≤ sceneConf s ∧ mind2 ≤ sceneDuration s ∧ sceneDuration s ≤ maxd2) :
    select_sequences_for_supercut
        (select_sequences_for_supercut scenes t mc mind maxd false none)
        t mc2 mind2 maxd2 false none
      = select_sequences_for_supercut scenes t mc mind maxd false none := by
  set O := select_sequences_for_supercut scenes t mc mind maxd false none with hOdef
  have hall : ∀ s ∈ O, filterPred mc2 mind2 maxd2 s = true := by
    intro s hs
    have hp := filterPred_of_mem_select hs
    simp only [filterPred, Bool.and_eq_true, decide_eq_true_eq] at hp
    obtain ⟨h1, h2, h3⟩ := h s hs
    simp only [filterPred, Bool.and_eq_true, decide_eq_true_eq]
    exact ⟨⟨hp.1.1, h1⟩, h2, h3⟩
  have hfilter : filter_action_scenes O mc2 mind2 maxd2 = O :=
    List.filter_eq_self.mpr hall
  by_cases hnil : O = []
  · rw [hnil]
    exact select_eq_nil_of_filter_nil rfl
  · have hfil_ne : filter_action_scenes O mc2 mind2 maxd2 ≠ [] := by
      rw [hfilter]
      exact hnil
    rw [select_eq_pack hfil_ne, hfilter,
      sortByConfDesc_eq_self (select_pairwise scenes t mc mind maxd none)]
    by_cases hfn : filter_action_scenes scenes mc mind maxd = []
    · exact absurd (select_eq_nil_of_filter_nil hfn) hnil
    · rw [hOdef, select_eq_pack hfn, packLoop_idem]

/-- C9 instantiated at the worked scenario with the loosened parameters
minConfidence 0, durations 0..100. -/
theorem select_idempotent_witness :
    select_sequences_for_supercut
        (select_sequences_for_supercut [chaseScene, fightScene, weakChaseScene]
          30 (1 / 2) 3 60 false none)
        30 0 0 100 false none
      = select_sequences_for_supercut [chaseScene, fightScene, weakChaseScene]
          30 (1 / 2) 3 60 false none :=
  select_idempotent [chaseScene, fightScene, weakChaseScene] 30 (1 / 2) 3 60
    0 0 100 (by
      intro s hs
      norm_num [select_sequences_for_supercut, filter_action_scenes, filterPred,
        rank_scenes_by_action_intensity, sortByConfDesc, insertConfDesc,
        packLoop, sceneConf, sceneDuration, chaseScene, fightScene,
        weakChaseScene, List.filter] at hs
      rcases hs with rfl | rfl <;>
        norm_num [sceneConf, sceneDuration, chaseScene, fightScene])

/-! ## Claim C2: segment resolution -/

theorem pyMaxConf_cons (first r : ClassResult) (rs : List ClassResult) :
    pyMaxConf first (r :: rs) =
      pyMaxConf (if first.confidence < r.confidence then r else first) rs := rfl

/-- Python's `max` returns an element of the sequence. -/
theorem pyMaxConf_mem (first : ClassResult) (rest : List ClassResult) :
    pyMaxConf first rest ∈ first :: rest := by
  induction rest generalizing first with
  | nil => simp [pyMaxConf]
  | cons r rs ih =>
    rw [pyMaxConf_cons]
    rcases List.mem_cons.1
        (ih (if first.confidence < r.confidence then r else first)) with heq | hmem
    · rw [heq]
      by_cases hc : first.confidence < r.confidence
      · simp [hc]
      · simp [hc]
    · exact List.mem_cons_of_mem _ (List.mem_cons_of_mem _ hmem)

/-- Python's `max` dominates every element of the sequence. -/
theorem pyMaxConf_le (first : ClassResult) (rest : List ClassResult) :
    ∀ x ∈ first :: rest, x.confidence ≤ (pyMaxConf first rest).confidence := by
  induction rest generalizing first with
  | nil =>
    intro x hx
    rcases List.mem_cons.1 hx with rfl | hx2
    · exact le_refl _
    · cases hx2
  | cons r rs ih =>
    intro x hx
    rw [pyMaxConf_cons]
    have hbase := ih (if first.confidence < r.confidence then r else first)
      (if first.confidence < r.confidence then r else first)
      (List.mem_cons_self _ _)
    rcases List.mem_cons.1 hx with rfl | hx2
    · refine le_trans ?_ hbase
      by_cases hc : x.confidence < r.confidence
      · rw [if_pos hc]
        exact le_of_lt hc
      · rw [if_neg hc]
    · rcases List.mem_cons.1 hx2 with rfl | hx3
      · refine le_trans ?_ hbase
        by_cases hc : first.confidence < x.confidence
        · rw [if_pos hc]
        · rw [if_neg hc]
          exact le_of_not_lt hc
      · exact ih _ x (List.mem_cons_of_mem _ hx3)

/-- The segmentation loop runs at least once whenever
`start_time < end_time - 1`. -/
theorem sceneSegments_ne_nil {startT endT : ℚ} (h : startT < endT - 1) :
    sceneSegments startT endT ≠ [] := by
  rw [sceneSegments]
  have h1 : (0 : ℤ) < ⌈endT - startT⌉ := by
    rw [Int.ceil_pos]
    linarith
  have h2 : ⌈endT - startT⌉.toNat ≠ 0 := by
    intro h0
    rw [Int.toNat_eq_zero] at h0
    exact absurd h1 (not_lt.2 h0)
  obtain ⟨n, hn⟩ := Nat.exists_eq_succ_of_ne_zero h2
  rw [hn, segmentsAux, if_pos h]
  simp

/-- C2 (amended): for a scene whose duration exceeds the 10 s split
threshold (with duration = endTime - startTime), segment resolution
succeeds and sets the scene's `action_type`/`action_confidence`/
`is_action_scene` to those of the highest-confidence sub-window (the first
such window on ties), while the per-window results are STORED on the scene
under `segment_results` — they are not cleared. -/
theorem analyze_scene_long_resolves (classify : ℚ → ℚ → ClassResult)
    (sc : SceneInfo) (hdur : sc.duration = sc.end_time - sc.start_time)
    (h10 : 10 < sc.duration) :
    ∃ results : List ClassResult,
      results = (sceneSegments sc.start_time sc.end_time).map
        (fun p => classify p.1 p.2)
      ∧ results ≠ []
      ∧ ∃ best ∈ results,
          (∀ r ∈ results, r.confidence ≤ best.confidence)
          ∧ analyze_scene classify sc = some { sc with
              action_type := some best.action_type,
              action_confidence := some best.confidence,
              is_action_scene := some best.is_action,
              segment_results := some results } := by
  have hlt : sc.start_time < sc.end_time - 1 := by
    rw [hdur] at h10
    linarith
  have hne : (sceneSegments sc.start_time sc.end_time).map
      (fun p => classify p.1 p.2) ≠ [] := by
    intro hmap
    exact sceneSegments_ne_nil hlt (List.map_eq_nil_iff.1 hmap)
  obtain ⟨r, rs, hrs⟩ := List.exists_cons_of_ne_nil hne
  refine ⟨r :: rs, hrs.symm, List.cons_ne_nil r rs, pyMaxConf r rs, ?_, ?_, ?_⟩
  · exact pyMaxConf_mem r rs
  · exact pyMaxConf_le r rs
  · rw [analyze_scene, if_pos h10]
    simp only [hrs]

/-- The scene of the source's own example usage, normalised to start 0:
duration 12 s, three 5 s/5 s/2 s windows. -/
def longScene : SceneInfo := { start_time := 0, end_time := 12, duration := 12 }

/-- A deterministic stand-in for the external classifier: the window
starting at `st` gets confidence `st`. -/
def demoClassify (st : ℚ) (en : ℚ) : ClassResult :=
  { action_type := "chase", confidence := st, is_action := en ≤ 12,
    all_scores := [] }

/-- C2 counterexample: after resolving the 12 s scene the record still
carries all three per-window results under `segment_results` — the
sub-segment data is stored, not cleared. -/
theorem analyze_scene_keeps_segment_results :
    ((analyze_scene demoClassify longScene).map
      (fun r => (r.segment_results.getD []).length)) = some 3 := by
  have hfuel : (⌈(12 : ℚ) - 0⌉).toNat = 12 := by simp
  norm_num [analyze_scene, longScene, sceneSegments, hfuel, segmentsAux,
    demoClassify, pyMaxConf]

/-- C2 (amended) instantiated on the 12 s demo scene. -/
theorem analyze_scene_long_resolves_witness :
    ∃ results : List ClassResult,
      results = (sceneSegments longScene.start_time longScene.end_time).map
        (fun p => demoClassify p.1 p.2)
      ∧ results ≠ []
      ∧ ∃ best ∈ results,
          (∀ r ∈ results, r.confidence ≤ best.confidence)
          ∧ analyze_scene demoClassify longScene = some { longScene with
              action_type := some best.action_type,
              action_confidence := some best.confidence,
              is_action_scene := some best.is_action,
              segment_results := some results } :=
  analyze_scene_long_resolves demoClassify longScene (by norm_num [longScene])
    (by norm_num [longScene])

end MISupperCut
